import Mathlib

/-!
# Verification of the ddu-source-nvim_lsp normalization and ordering engine

Shallow embedding of `src/denops/@ddu-sources/lsp_diagnostic.ts` and
`src/denops/@ddu-sources/nvim_lsp.ts`.

Conventions of the embedding:
* JS numbers used as line/character offsets, buffer handles and severities are
  modelled as `Int`.
* Optional (possibly-`undefined`) fields are modelled as `Option`.
* TypeScript `async` functions that can `throw` are modelled in `Except String`;
  host-bridge calls (`denops.call`, `bufNrToFileUri`, ...) are passed in as
  function parameters returning `Except`.
* JS objects used as string-keyed records (`Record<string, T>`) are modelled as
  association lists `List (String × T)`; `Object.values` is `List.map Prod.snd`.
-/

/-- A zero-based text position (`line`/`character`), as in the LSP wire shape. -/
structure Position where
  line : Int
  character : Int
deriving DecidableEq, Repr

/-- A text range: `start` and `end` positions. (`end` is a Lean keyword, hence
the guillemets.) -/
structure Range where
  start : Position
  «end» : Position
deriving DecidableEq, Repr

/-- The canonical LSP `Diagnostic` shape, with the protocol-defined fields used
by this repository. `code`, `codeDescription`, `tags`, `relatedInformation` and
`data` are opaque passthrough payloads here, modelled as optional strings. -/
structure Diagnostic where
  range : Range
  severity : Option Int := none
  code : Option String := none
  codeDescription : Option String := none
  source : Option String := none
  message : String
  tags : Option String := none
  relatedInformation : Option String := none
  data : Option String := none
deriving DecidableEq, Repr

/-- `DduDiagnostic = Diagnostic & { bufNr?: number; path?: string }`
(src/denops/@ddu-sources/lsp_diagnostic.ts, lines 21-24). -/
structure DduDiagnostic extends Diagnostic where
  bufNr : Option Int := none
  path : Option String := none
deriving DecidableEq, Repr

/-- The keys of the `Severity` table of lsp_diagnostic.ts (lines 26-31): coc.nvim
reports severities by name. -/
inductive SeverityName where
  | Error
  | Warning
  | Info
  | Hint
deriving DecidableEq, Repr

/-- The fixed table `{ Error: 1, Warning: 2, Info: 3, Hint: 4 }`
(lsp_diagnostic.ts, lines 26-31). -/
def Severity : SeverityName → Int
  | .Error => 1
  | .Warning => 2
  | .Info => 3
  | .Hint => 4

/-- Raw record shape returned by `vim.diagnostic.get` for the nvim-lsp client
(lsp_diagnostic.ts, lines 128-134): 0-based `lnum`/`end_lnum`/`col`/`end_col`
offsets plus `bufnr`, and the picked `Diagnostic` fields
`message`/`severity`/`source`/`code`. -/
structure NvimLspDiagnostic where
  message : String
  severity : Option Int := none
  source : Option String := none
  code : Option String := none
  lnum : Int
  end_lnum : Int
  col : Int
  end_col : Int
  bufnr : Int
deriving DecidableEq, Repr

/-- A `Location`: `uri` plus `range` (nvim_lsp.ts / vscode-languageserver-types). -/
structure Location where
  uri : String
  range : Range
deriving DecidableEq, Repr

/-- Raw record shape returned by `CocAction("diagnosticList")`
(lsp_diagnostic.ts, lines 164-168): the picked `Diagnostic` fields plus a `file`
path, a `location` and a severity *name*. -/
structure CocDiagnostic where
  message : String
  source : Option String := none
  code : Option String := none
  file : String
  location : Location
  severity : SeverityName
deriving DecidableEq, Repr

/-- The `params` payload of a vim-lsp diagnostic group (lsp_diagnostic.ts,
lines 187-192): a file `uri` and the canonical diagnostics published for it. -/
structure VimLspParams where
  uri : String
  diagnostics : List Diagnostic
deriving DecidableEq, Repr

/-- Raw vim-lsp record shape (lsp_diagnostic.ts, lines 187-192). -/
structure VimLspDiagnostic where
  params : VimLspParams
deriving DecidableEq, Repr

/-- Model of `fromFileUrl` from the external deno std `path` dependency
(imported via ddu_source_lsp/deps.ts): decodes a `file://` URL into a
file-system path. External library code; no claim depends on its internals,
only on the fact that it returns some path string. -/
def fromFileUrl (url : String) : String :=
  if List.isPrefixOf "file://".data url.data then String.mk (url.data.drop 7) else url

/-- The per-record normalization performed by `getNvimLspDiagnostics`
(lsp_diagnostic.ts, lines 146-161): spread the raw record, compose `range` from
the four 0-based offsets and copy `bufnr` into `bufNr`. -/
def nvimMapOne (diag : NvimLspDiagnostic) : DduDiagnostic :=
  { message := diag.message
    severity := diag.severity
    source := diag.source
    code := diag.code
    range := { start := { line := diag.lnum, character := diag.col }
               «end» := { line := diag.end_lnum, character := diag.end_col } }
    bufNr := some diag.bufnr }

/-- The per-record normalization performed by `getCocDiagnostics`
(lsp_diagnostic.ts, lines 177-184): spread the raw record, copy `file` into
`path`, copy `location.range` into `range`, and map the severity name through
the `Severity` table. -/
def cocMapOne (diag : CocDiagnostic) : DduDiagnostic :=
  { message := diag.message
    source := diag.source
    code := diag.code
    range := diag.location.range
    severity := some (Severity diag.severity)
    path := some diag.file }

/-- The per-record normalization performed by `getVimLspDiagnostics`
(lsp_diagnostic.ts, lines 210-215 and 228-233): spread the canonical diagnostic
and stamp the group's decoded `path` onto it. -/
def vimMapOne (path : String) (diag : Diagnostic) : DduDiagnostic :=
  { diag with path := some path }

/-- The filter predicate of `getCocDiagnostics` (lsp_diagnostic.ts, line 176):
`!uri || diag.location.uri === uri`. `uri` is `undefined` when no buffer scope
was given, and JS string truthiness also lets an empty resolved uri disable the
filter. -/
def cocKeep (uri : Option String) (diag : CocDiagnostic) : Bool :=
  match uri with
  | none => true
  | some u => u = "" || diag.location.uri = u

/-- The pure list-level part of the nvim-lsp adapter (lsp_diagnostic.ts,
lines 143-161): map every raw record through the normalization. -/
def nvimAdapter (raws : List NvimLspDiagnostic) : List DduDiagnostic :=
  raws.map nvimMapOne

/-- The pure list-level part of the coc.nvim adapter (lsp_diagnostic.ts,
lines 175-185): keep the records passing the uri filter, then normalize. -/
def cocAdapter (uri : Option String) (raws : List CocDiagnostic) : List DduDiagnostic :=
  (raws.filter (cocKeep uri)).map cocMapOne

/-- The pure list-level part of the vim-lsp adapter for a single uri
(lsp_diagnostic.ts, lines 200-216): `Object.values` of the server-keyed record,
then flatten each group, decoding its uri into a path stamped on every
diagnostic of the group. -/
def vimAdapterForUri (grouped : List (String × VimLspDiagnostic)) : List DduDiagnostic :=
  (grouped.map Prod.snd).flatMap (fun g =>
    g.params.diagnostics.map (vimMapOne (fromFileUrl g.params.uri)))

/-- The pure list-level part of the vim-lsp adapter with no buffer scope
(lsp_diagnostic.ts, lines 218-235): flatten the two levels of uri/server
grouping, then flatten each group as above. -/
def vimAdapterAll
    (grouped : List (String × List (String × VimLspDiagnostic))) : List DduDiagnostic :=
  ((grouped.map Prod.snd).flatMap (fun sub => sub.map Prod.snd)).flatMap (fun g =>
    g.params.diagnostics.map (vimMapOne (fromFileUrl g.params.uri)))

/-- The `action` payload of a diagnostic item (ItemDiagnostic's
`SomeRequired<ActionData, "bufNr">` in lsp_diagnostic.ts, lines 14-19; the
declared type requires `bufNr`, but at runtime `diagnosticToItem` copies a
possibly-undefined `bufNr`, and the sorter explicitly tests it against
`undefined`, so it is modelled optional). -/
structure ActionData where
  path : Option String := none
  bufNr : Option Int := none
  lineNr : Int
  col : Int
deriving DecidableEq, Repr

/-- A diagnostic display item (`ItemDiagnostic`, lsp_diagnostic.ts, lines
14-19): a `word` label, a jump action and the originating diagnostic as
`data`. -/
structure ItemDiagnostic where
  word : String
  action : ActionData
  data : DduDiagnostic
deriving DecidableEq, Repr

/-- `diagnosticToItem` (lsp_diagnostic.ts, lines 238-250): `word` is the
message cut at the first `"\n"` (`message.split("\n")[0]`, i.e. the prefix
before the first newline), and the action carries `path`/`bufNr` plus the
1-based `lineNr`/`col` derived from the 0-based range start. -/
def diagnosticToItem (diagnostic : DduDiagnostic) : ItemDiagnostic :=
  { word := String.mk (diagnostic.message.data.takeWhile (· ≠ '\n'))
    action :=
      { path := diagnostic.path
        bufNr := diagnostic.bufNr
        lineNr := diagnostic.range.start.line + 1
        col := diagnostic.range.start.character + 1 }
    data := diagnostic }

/-- The comparator passed to `items.sort` by `sortItemDiagnostic`
(lsp_diagnostic.ts, lines 257-273), returning a signed number:

* if `a.action.bufNr` is truthy (defined and nonzero) and equal to
  `b.action.bufNr`: equal severities compare by `lineNr` difference, otherwise
  by the difference of severities with `undefined` defaulting to 1;
* otherwise an `a` with undefined or focused `bufNr` yields `-1`; failing that
  a `b` with undefined or focused `bufNr` yields `1`; failing that the numeric
  `bufNr` difference. -/
def cmpItem (curBufNr : Int) (a b : ItemDiagnostic) : Int :=
  match a.action.bufNr with
  | some abuf =>
    if abuf ≠ 0 ∧ b.action.bufNr = some abuf then
      if a.data.severity = b.data.severity then
        a.action.lineNr - b.action.lineNr
      else
        a.data.severity.getD 1 - b.data.severity.getD 1
    else if abuf = curBufNr then
      -1
    else
      match b.action.bufNr with
      | none => 1
      | some bbuf => if bbuf = curBufNr then 1 else abuf - bbuf
  | none => -1

/-- The comparator as a boolean "less or equal", the form a stable sort
consumes: `a` may stay before `b` iff the comparator does not order `b`
strictly first. -/
def leItem (curBufNr : Int) (a b : ItemDiagnostic) : Bool :=
  cmpItem curBufNr a b ≤ 0

/-- One step of the standard stable merge: take from the left run while its
head compares `≤ 0` against the right head. Fueled so that the kernel can
evaluate it; with fuel below the combined length the remainder is appended
unmerged (never reached through `jsMerge`). -/
def jsMergeF (le : α → α → Bool) : Nat → List α → List α → List α
  | 0, xs, ys => xs ++ ys
  | _ + 1, [], ys => ys
  | _ + 1, x :: xs, [] => x :: xs
  | fuel + 1, x :: xs, y :: ys =>
    if le x y then x :: jsMergeF le fuel xs (y :: ys)
    else y :: jsMergeF le fuel (x :: xs) ys

/-- Stable merge of two runs. -/
def jsMerge (le : α → α → Bool) (xs ys : List α) : List α :=
  jsMergeF le (xs.length + ys.length) xs ys

/-- Fueled stable top-down merge sort: split into first and second half, sort
both, merge. This models ECMAScript `Array.prototype.sort`, which mandates a
stable sort; for a comparator that is not consistent the resulting order is
implementation-defined, and this canonical stable merge sort is the modelled
choice. With fuel below the length the list is returned unsorted (never
reached through `sortItemDiagnostic`). -/
def jsMergeSortF (le : α → α → Bool) : Nat → List α → List α
  | 0, l => l
  | _ + 1, [] => []
  | _ + 1, [a] => [a]
  | fuel + 1, a :: b :: rest =>
    let n := ((a :: b :: rest).length + 1) / 2
    jsMerge le (jsMergeSortF le fuel ((a :: b :: rest).take n))
      (jsMergeSortF le fuel ((a :: b :: rest).drop n))

/-- `sortItemDiagnostic` (lsp_diagnostic.ts, lines 256-274): sort the built
items with the telescope-derived comparator relative to the focused buffer.
The source sorts in place; the model returns the sorted list. -/
def sortItemDiagnostic (items : List ItemDiagnostic) (curBufNr : Int) : List ItemDiagnostic :=
  jsMergeSortF (leItem curBufNr) items.length items

/-- `LocationLink`, the alternate wire shape carrying `targetUri` and
`targetSelectionRange` (plus the unused-by-the-source `targetRange` and
optional `originSelectionRange`). -/
structure LocationLink where
  originSelectionRange : Option Range := none
  targetUri : String
  targetRange : Range
  targetSelectionRange : Range
deriving DecidableEq, Repr

/-- The `Location | LocationLink` union consumed by `toLocation`
(nvim_lsp.ts, line 24). In JS the two shapes are told apart by probing for the
`uri`/`range` fields, which a `LocationLink` does not have; the union tag
models exactly that presence test. -/
inductive LocOrLink where
  | loc (l : Location)
  | link (l : LocationLink)
deriving DecidableEq, Repr

/-- `toLocation` (nvim_lsp.ts, lines 24-33): a point `Location` is returned
unchanged; a `LocationLink` is collapsed to its `targetUri` and
`targetSelectionRange`. -/
def toLocation : LocOrLink → Location
  | .loc l => l
  | .link l => { uri := l.targetUri, range := l.targetSelectionRange }

/-- ECMAScript line terminators, which `.` in a JS regex does not match. -/
def isLineTerminator (c : Char) : Bool :=
  c = '\n' || c = '\r' || c = '\u2028' || c = '\u2029'

/-- Whether the four-alternative tail `%23(%5E|%7E|%3C|%3D)` of the workaround
regex matches at the head of `cs`. -/
def fragHere (cs : List Char) : Bool :=
  List.isPrefixOf "%23%5E".data cs || List.isPrefixOf "%23%7E".data cs ||
    List.isPrefixOf "%23%3C".data cs || List.isPrefixOf "%23%3D".data cs

/-- Search for a match of `%23(%5E|%7E|%3C|%3D)` reachable from the start of
`cs` through `.*`, i.e. without crossing a line terminator. -/
def fragSearch : List Char → Bool
  | [] => false
  | c :: cs => fragHere (c :: cs) || (!isLineTerminator c && fragSearch cs)

/-- `isDenoUriWithFragment` (nvim_lsp.ts, lines 47-55): the workaround filter
`/^deno:.*%23(%5E|%7E|%3C|%3D)/.test(uri)` for the deno virtual-buffer bug. -/
def isDenoUriWithFragment (location : Location) : Bool :=
  List.isPrefixOf "deno:".data location.uri.data && fragSearch (location.uri.data.drop 5)

/-- The `pathname` of `new URL(uri)` for a well-formed `file:` URL: skip the
scheme and the `//`-delimited (empty) authority, keep everything up to a query
or fragment. Models the platform `URL` parser only as far as the source uses
it. -/
def urlPathname (uri : String) : String :=
  let rest := uri.data.drop 5
  let rest := if List.isPrefixOf "//".data rest then (rest.drop 2).dropWhile (· ≠ '/') else rest
  String.mk (rest.takeWhile (fun c => c ≠ '?' && c ≠ '#'))

/-- The `action` payload of a location item (`ActionData` of
ddu_kind_file): a path and 1-based line/column. -/
structure ActionFile where
  path : String
  lineNr : Int
  col : Int
deriving DecidableEq, Repr

/-- A location display item (`Item<ActionData>` of nvim_lsp.ts): label,
display string and jump action. -/
structure ItemLoc where
  word : String
  display : String
  action : ActionFile
deriving DecidableEq, Repr

/-- `locationToItem` (nvim_lsp.ts, lines 35-45): `file:` URIs contribute their
URL pathname, any other URI is used verbatim; line and column are converted to
1-based; the display label is `path:lineNr:col`. -/
def locationToItem (location : Location) : ItemLoc :=
  let path := if List.isPrefixOf "file:".data location.uri.data then urlPathname location.uri
    else location.uri
  let lineNr := location.range.start.line + 1
  let col := location.range.start.character + 1
  { word := path
    display := s!"{path}:{lineNr}:{col}"
    action := { path := path, lineNr := lineNr, col := col } }

/-- The raw `result` of one client's response to a single-target method
(declaration/definition/typeDefinition/implementation): `Location | Location[]
| LocationLink[]` (nvim_lsp.ts, lines 129-132). Arrays may mix both shapes in
the model; the source maps `toLocation` over every array element anyway. -/
inductive DefinitionResult where
  | single (l : Location)
  | array (ls : List LocOrLink)
deriving DecidableEq, Repr

/-- One entry of the host bridge's response (nvim_lsp.ts, lines 61-64). -/
structure ResponseEntry where
  clientId : Int
  result : DefinitionResult
deriving DecidableEq, Repr

/-- One entry of the host bridge's response to `textDocument/references`,
whose `result` is always a `Location[]` (nvim_lsp.ts, lines 147-152). -/
structure RefResponseEntry where
  clientId : Int
  result : List Location
deriving DecidableEq, Repr

/-- The location-gathering stage of `definitionHandler` (nvim_lsp.ts, lines
121-138): a non-array result is wrapped as a singleton, an array is mapped
through `toLocation`. -/
def definitionLocations (response : List ResponseEntry) : List Location :=
  response.flatMap (fun r =>
    match r.result with
    | .single l => [l]
    | .array ls => ls.map toLocation)

/-- `definitionHandler` (nvim_lsp.ts, lines 118-142): gather locations, drop
the deno-fragment URIs, build items. -/
def definitionHandler (response : List ResponseEntry) : List ItemLoc :=
  ((definitionLocations response).filter (fun location =>
    !isDenoUriWithFragment location)).map locationToItem

/-- `referencesHandler` (nvim_lsp.ts, lines 144-156): concatenate the
`Location[]` results, drop the deno-fragment URIs, build items. -/
def referencesHandler (response : List RefResponseEntry) : List ItemLoc :=
  ((response.flatMap (fun r => r.result)).filter (fun location =>
    !isDenoUriWithFragment location)).map locationToItem

/-- Modelled from the spec: `assertClientName` lives in
denops/ddu_source_lsp/client.ts, which is not under src/. The spec fixes a
closed enumeration of three supported client variants selected by identifier;
an unknown identifier is an error caught at the orchestrator boundary like any
other failure. -/
def assertClientName (clientName : String) : Except String Unit :=
  if clientName = "nvim-lsp" ∨ clientName = "coc.nvim" ∨ clientName = "vim-lsp" then
    Except.ok ()
  else
    Except.error ("Unknown client name: " ++ clientName)

/-- The host-bridge collaborators a diagnostic request consumes, passed in as
fallible functions: the denops host kind, `vim.diagnostic.get`,
`bufNrToFileUri`, `CocAction("diagnosticList")` and the two vim-lsp state
queries. -/
structure Bridges where
  host : String
  nvimFetch : Option Int → Except String (Option (List NvimLspDiagnostic))
  resolveUri : Int → Except String String
  cocFetch : Except String (Option (List CocDiagnostic))
  vimFetchForUri : String → Except String (List (String × VimLspDiagnostic))
  vimFetchAll : Except String (List (String × List (String × VimLspDiagnostic)))

/-- `getNvimLspDiagnostics` (lsp_diagnostic.ts, lines 136-162): on a vim host
the client is unavailable and the call throws; otherwise the fetched records
(possibly `null`) are normalized. -/
def getNvimLspDiagnostics (host : String)
    (nvimFetch : Option Int → Except String (Option (List NvimLspDiagnostic)))
    (bufNr : Option Int) : Except String (Option (List DduDiagnostic)) :=
  if host = "vim" then
    Except.error "Client 'nvim-lsp' is not available in vim"
  else
    (nvimFetch bufNr).map (fun raws => raws.map nvimAdapter)

/-- The uri-resolution step of `getCocDiagnostics` (lsp_diagnostic.ts, line
174): `bufNr ? await bufNrToFileUri(denops, bufNr) : undefined` — a falsy
(null or 0) buffer scope yields no uri. -/
def cocUriOf (resolveUri : Int → Except String String) (bufNr : Option Int) :
    Except String (Option String) :=
  match bufNr with
  | some n => if n = 0 then pure none else (resolveUri n).map some
  | none => pure none

/-- `getCocDiagnostics` (lsp_diagnostic.ts, lines 170-185): resolve the scope
buffer (if truthy) to a uri, fetch the full diagnostic list, keep the records
passing the uri filter and normalize them. -/
def getCocDiagnostics (resolveUri : Int → Except String String)
    (cocFetch : Except String (Option (List CocDiagnostic)))
    (bufNr : Option Int) : Except String (Option (List DduDiagnostic)) := do
  let uri ← cocUriOf resolveUri bufNr
  let raws ← cocFetch
  pure (raws.map (cocAdapter uri))

/-- `getVimLspDiagnostics` (lsp_diagnostic.ts, lines 194-236): with a truthy
scope buffer, resolve it to a uri and flatten that uri's server-grouped state;
otherwise flatten the whole uri-and-server-grouped state. -/
def getVimLspDiagnostics (resolveUri : Int → Except String String)
    (vimFetchForUri : String → Except String (List (String × VimLspDiagnostic)))
    (vimFetchAll : Except String (List (String × List (String × VimLspDiagnostic))))
    (bufNr : Option Int) : Except String (List DduDiagnostic) :=
  match bufNr with
  | some n =>
    if n = 0 then vimFetchAll.map vimAdapterAll
    else do
      let uri ← resolveUri n
      let grouped ← vimFetchForUri uri
      pure (vimAdapterForUri grouped)
  | none => vimFetchAll.map vimAdapterAll

/-- `getDiagnostic` (lsp_diagnostic.ts, lines 112-126): dispatch on the client
name; the exhaustiveness fallback returns `undefined`. -/
def getDiagnostic (br : Bridges) (clientName : String) (bufNr : Option Int) :
    Except String (Option (List DduDiagnostic)) :=
  if clientName = "nvim-lsp" then
    getNvimLspDiagnostics br.host br.nvimFetch bufNr
  else if clientName = "coc.nvim" then
    getCocDiagnostics br.resolveUri br.cocFetch bufNr
  else if clientName = "vim-lsp" then
    (getVimLspDiagnostics br.resolveUri br.vimFetchForUri br.vimFetchAll bufNr).map some
  else
    pure none

/-- The `buffer` source parameter: `number | number[] | null`
(lsp_diagnostic.ts, lines 35-38). -/
inductive BufferParam where
  | null
  | single (n : Int)
  | list (ns : List Int)
deriving DecidableEq, Repr

/-- `Array.isArray(buffer) ? buffer : [buffer]` (lsp_diagnostic.ts, line 55):
the per-request list of buffer scopes, `null` staying as a single `null`
scope. -/
def buffersOf : BufferParam → List (Option Int)
  | .null => [none]
  | .single n => [some n]
  | .list ns => ns.map some

/-- The fallible pipeline inside the `try` of `Source.gather`
(lsp_diagnostic.ts, lines 52-68): assert the client name, resolve the sentinel
buffer 0 to the context buffer, fetch and concatenate per-buffer diagnostics
(a `null` backend answer contributing nothing), build items and sort them.
Icon and highlight decoration is an external collaborator that the model
leaves out. -/
def gatherPipeline (br : Bridges) (clientName : String) (buffer : BufferParam)
    (ctxBufNr : Int) : Except String (List ItemDiagnostic) := do
  assertClientName clientName
  let diagnostics ← (buffersOf buffer).foldlM (fun acc b => do
    let bufNr : Option Int := if b = some 0 then some ctxBufNr else b
    let ds ← getDiagnostic br clientName bufNr
    pure (acc ++ ds.getD [])) []
  let items := diagnostics.map diagnosticToItem
  pure (sortItemDiagnostic items ctxBufNr)

/-- What a diagnostics request hands back to its surroundings: the batches
enqueued on the stream, and the `(error, source name)` pairs reported to the
`printError` logging collaborator. -/
structure GatherResult where
  batches : List (List ItemDiagnostic)
  errors : List (String × String)
deriving Repr

/-- `Source.gather` for diagnostics (lsp_diagnostic.ts, lines 43-77): on
success the sorted items are enqueued as one batch; any failure is caught,
reported to `printError` under the name `"lsp_diagnostic"`, and nothing is
enqueued. The stream is closed in both cases — the caller never observes a
fault. -/
def gather (br : Bridges) (clientName : String) (buffer : BufferParam)
    (ctxBufNr : Int) : GatherResult :=
  match gatherPipeline br clientName buffer ctxBufNr with
  | .ok items => { batches := [items], errors := [] }
  | .error e => { batches := [], errors := [(e, "lsp_diagnostic")] }

/-- Modelled from the spec: `pick` lives in denops/ddu_source_lsp/util.ts,
which is not under src/. Per the spec's sanitizer contract it returns a record
containing only the listed keys. Records are modelled as association lists
with string values. -/
def pick (record : List (String × String)) (keys : List String) : List (String × String) :=
  record.filter (fun kv => keys.contains kv.1)

/-- The protocol-defined field set that `getProperDiagnostics` passes to
`pick` (lsp_diagnostic.ts, lines 96-108). -/
def properKeys : List String :=
  ["range", "severity", "code", "codeDescription", "source", "message", "tags",
    "relatedInformation", "data"]

/-- The sanitizing map of `getProperDiagnostics` (lsp_diagnostic.ts, lines
90-110), at the record level: every fetched diagnostic record — whatever extra
fields a backend stuffed into it — is reduced to the protocol-defined field
set. -/
def getProperDiagnosticsRec
    (records : List (List (String × String))) : List (List (String × String)) :=
  records.map (fun r => pick r properKeys)

/-! ## Structural lemmas about the modelled stable merge sort -/

theorem mem_jsMergeF (le : α → α → Bool) :
    ∀ (fuel : Nat) (xs ys : List α) (a : α),
      a ∈ jsMergeF le fuel xs ys ↔ a ∈ xs ∨ a ∈ ys := by
  intro fuel
  induction fuel with
  | zero => intro xs ys a; simp [jsMergeF]
  | succ n ih =>
    intro xs ys a
    match xs, ys with
    | [], ys => simp [jsMergeF]
    | x :: xs, [] => simp [jsMergeF]
    | x :: xs, y :: ys =>
      simp only [jsMergeF]
      split
      · simp only [List.mem_cons, ih]
        tauto
      · simp only [List.mem_cons, ih]
        tauto

theorem mem_jsMerge (le : α → α → Bool) (xs ys : List α) (a : α) :
    a ∈ jsMerge le xs ys ↔ a ∈ xs ∨ a ∈ ys :=
  mem_jsMergeF le _ xs ys a

theorem length_jsMergeF (le : α → α → Bool) :
    ∀ (fuel : Nat) (xs ys : List α),
      (jsMergeF le fuel xs ys).length = xs.length + ys.length := by
  intro fuel
  induction fuel with
  | zero => intro xs ys; simp [jsMergeF]
  | succ n ih =>
    intro xs ys
    match xs, ys with
    | [], ys => simp [jsMergeF]
    | x :: xs, [] => simp [jsMergeF]
    | x :: xs, y :: ys =>
      simp only [jsMergeF]
      split
      · simp only [List.length_cons, ih]; omega
      · simp only [List.length_cons, ih]; omega

theorem length_jsMergeSortF (le : α → α → Bool) :
    ∀ (fuel : Nat) (l : List α), (jsMergeSortF le fuel l).length = l.length := by
  intro fuel
  induction fuel with
  | zero => intro l; rfl
  | succ n ih =>
    intro l
    match l with
    | [] => rfl
    | [a] => rfl
    | a :: b :: rest =>
      simp only [jsMergeSortF, jsMerge, length_jsMergeF, ih]
      simp [List.length_take, List.length_drop]
      omega

theorem mem_jsMergeSortF (le : α → α → Bool) :
    ∀ (fuel : Nat) (l : List α) (a : α), a ∈ jsMergeSortF le fuel l ↔ a ∈ l := by
  intro fuel
  induction fuel with
  | zero => intro l a; rfl
  | succ n ih =>
    intro l a
    match l with
    | [] => rfl
    | [a] => rfl
    | a :: b :: rest =>
      simp only [jsMergeSortF, mem_jsMerge, ih]
      rw [← List.mem_append, List.take_append_drop]

/-- If a key function `f` is compatible with the boolean comparator on a class
`P` of elements — a strictly `f`-smaller element always compares as `≤` and
never as `≥` — then merging two `f`-monotone runs of `P`-elements yields an
`f`-monotone list. -/
theorem pairwise_jsMergeF_of_compat {α : Type} {β : Type} [LinearOrder β] (f : α → β)
    (le : α → α → Bool) (P : α → Prop)
    (hc : ∀ a b, P a → P b → f a < f b → le a b = true ∧ le b a = false) :
    ∀ (fuel : Nat) (xs ys : List α), xs.length + ys.length ≤ fuel →
      (∀ x ∈ xs, P x) → (∀ y ∈ ys, P y) →
      xs.Pairwise (fun a b => f a ≤ f b) → ys.Pairwise (fun a b => f a ≤ f b) →
      (jsMergeF le fuel xs ys).Pairwise (fun a b => f a ≤ f b) := by
  intro fuel
  induction fuel with
  | zero =>
    intro xs ys hlen hPxs hPys hsx hsy
    cases xs with
    | nil =>
      cases ys with
      | nil => simp [jsMergeF]
      | cons y ys => simp at hlen
    | cons x xs => simp at hlen
  | succ n ih =>
    intro xs ys hlen hPxs hPys hsx hsy
    match xs, ys with
    | [], ys => simpa [jsMergeF] using hsy
    | x :: xs, [] => simpa [jsMergeF] using hsx
    | x :: xs, y :: ys =>
      simp only [jsMergeF]
      split
      case isTrue h =>
        have hxy : f x ≤ f y := by
          by_contra hfx
          push_neg at hfx
          have := (hc y x (hPys y (List.mem_cons_self y ys)) (hPxs x (List.mem_cons_self x xs)) hfx).2
          simp [this] at h
        rw [List.pairwise_cons]
        constructor
        · intro z hz
          rw [mem_jsMergeF] at hz
          rcases hz with hz | hz
          · exact (List.pairwise_cons.mp hsx).1 z hz
          · rcases List.mem_cons.mp hz with rfl | hz
            · exact hxy
            · exact le_trans hxy ((List.pairwise_cons.mp hsy).1 z hz)
        · apply ih
          · simp at hlen ⊢; omega
          · intro z hz; exact hPxs z (List.mem_cons_of_mem x hz)
          · exact hPys
          · exact (List.pairwise_cons.mp hsx).2
          · exact hsy
      case isFalse h =>
        have hle : le x y = false := by
          cases hxy : le x y with
          | false => rfl
          | true => exact absurd hxy h
        have hyx : f y ≤ f x := by
          by_contra hfy
          push_neg at hfy
          have := (hc x y (hPxs x (List.mem_cons_self x xs)) (hPys y (List.mem_cons_self y ys)) hfy).1
          simp [this] at hle
        rw [List.pairwise_cons]
        constructor
        · intro z hz
          rw [mem_jsMergeF] at hz
          rcases hz with hz | hz
          · rcases List.mem_cons.mp hz with rfl | hz
            · exact hyx
            · exact le_trans hyx ((List.pairwise_cons.mp hsx).1 z hz)
          · exact (List.pairwise_cons.mp hsy).1 z hz
        · apply ih
          · simp at hlen ⊢; omega
          · exact hPxs
          · intro z hz; exact hPys z (List.mem_cons_of_mem y hz)
          · exact hsx
          · exact (List.pairwise_cons.mp hsy).2

/-- The modelled stable merge sort produces an `f`-monotone list whenever the
key `f` is compatible with the comparator on a class containing every
element. -/
theorem pairwise_jsMergeSortF_of_compat {α : Type} {β : Type} [LinearOrder β] (f : α → β)
    (le : α → α → Bool) (P : α → Prop)
    (hc : ∀ a b, P a → P b → f a < f b → le a b = true ∧ le b a = false) :
    ∀ (fuel : Nat) (l : List α), l.length ≤ fuel → (∀ x ∈ l, P x) →
      (jsMergeSortF le fuel l).Pairwise (fun a b => f a ≤ f b) := by
  intro fuel
  induction fuel with
  | zero =>
    intro l hlen hP
    cases l with
    | nil => exact List.Pairwise.nil
    | cons a l => simp at hlen
  | succ n ih =>
    intro l hlen hP
    match l with
    | [] => exact List.Pairwise.nil
    | [a] => simp [jsMergeSortF]
    | a :: b :: rest =>
      simp only [jsMergeSortF, jsMerge]
      apply pairwise_jsMergeF_of_compat f le P hc
      · exact le_refl _
      · intro z hz
        rw [mem_jsMergeSortF] at hz
        exact hP z ((List.take_sublist _ _).subset hz)
      · intro z hz
        rw [mem_jsMergeSortF] at hz
        exact hP z ((List.drop_sublist _ _).subset hz)
      · apply ih
        · simp only [List.length_take, List.length_cons] at *
          omega
        · intro z hz
          exact hP z ((List.take_sublist _ _).subset hz)
      · apply ih
        · simp only [List.length_drop, List.length_cons] at *
          omega
        · intro z hz
          exact hP z ((List.drop_sublist _ _).subset hz)

/-- If the boolean comparator is total on a class `P`, transitive on `P`, and
both runs are `le`-sorted lists of `P`-elements, the merge is `le`-sorted. -/
theorem pairwise_le_jsMergeF {α : Type} (le : α → α → Bool) (P : α → Prop)
    (htot : ∀ a b, P a → P b → le a b = true ∨ le b a = true)
    (htr : ∀ a b c, P a → P b → P c → le a b = true → le b c = true → le a c = true) :
    ∀ (fuel : Nat) (xs ys : List α), xs.length + ys.length ≤ fuel →
      (∀ x ∈ xs, P x) → (∀ y ∈ ys, P y) →
      xs.Pairwise (fun a b => le a b = true) → ys.Pairwise (fun a b => le a b = true) →
      (jsMergeF le fuel xs ys).Pairwise (fun a b => le a b = true) := by
  intro fuel
  induction fuel with
  | zero =>
    intro xs ys hlen hPxs hPys hsx hsy
    cases xs with
    | nil =>
      cases ys with
      | nil => simp [jsMergeF]
      | cons y ys => simp at hlen
    | cons x xs => simp at hlen
  | succ n ih =>
    intro xs ys hlen hPxs hPys hsx hsy
    match xs, ys with
    | [], ys => simpa [jsMergeF] using hsy
    | x :: xs, [] => simpa [jsMergeF] using hsx
    | x :: xs, y :: ys =>
      simp only [jsMergeF]
      split
      case isTrue h =>
        rw [List.pairwise_cons]
        constructor
        · intro z hz
          rw [mem_jsMergeF] at hz
          rcases hz with hz | hz
          · exact (List.pairwise_cons.mp hsx).1 z hz
          · rcases List.mem_cons.mp hz with rfl | hz
            · exact h
            · exact htr x y z (hPxs x (List.mem_cons_self x xs))
                (hPys y (List.mem_cons_self y ys)) (hPys z (List.mem_cons_of_mem y hz)) h
                ((List.pairwise_cons.mp hsy).1 z hz)
        · apply ih
          · simp at hlen ⊢; omega
          · intro z hz; exact hPxs z (List.mem_cons_of_mem x hz)
          · exact hPys
          · exact (List.pairwise_cons.mp hsx).2
          · exact hsy
      case isFalse h =>
        have hyx : le y x = true := by
          rcases htot x y (hPxs x (List.mem_cons_self x xs)) (hPys y (List.mem_cons_self y ys))
            with hxy | hyx
          · exact absurd hxy h
          · exact hyx
        rw [List.pairwise_cons]
        constructor
        · intro z hz
          rw [mem_jsMergeF] at hz
          rcases hz with hz | hz
          · rcases List.mem_cons.mp hz with rfl | hz
            · exact hyx
            · exact htr y x z (hPys y (List.mem_cons_self y ys))
                (hPxs x (List.mem_cons_self x xs)) (hPxs z (List.mem_cons_of_mem x hz)) hyx
                ((List.pairwise_cons.mp hsx).1 z hz)
          · exact (List.pairwise_cons.mp hsy).1 z hz
        · apply ih
          · simp at hlen ⊢; omega
          · exact hPxs
          · intro z hz; exact hPys z (List.mem_cons_of_mem y hz)
          · exact hsx
          · exact (List.pairwise_cons.mp hsy).2

/-- With a comparator total and transitive on a class containing every
element, the modelled stable merge sort returns an `le`-sorted list. -/
theorem pairwise_le_jsMergeSortF {α : Type} (le : α → α → Bool) (P : α → Prop)
    (htot : ∀ a b, P a → P b → le a b = true ∨ le b a = true)
    (htr : ∀ a b c, P a → P b → P c → le a b = true → le b c = true → le a c = true) :
    ∀ (fuel : Nat) (l : List α), l.length ≤ fuel → (∀ x ∈ l, P x) →
      (jsMergeSortF le fuel l).Pairwise (fun a b => le a b = true) := by
  intro fuel
  induction fuel with
  | zero =>
    intro l hlen hP
    cases l with
    | nil => exact List.Pairwise.nil
    | cons a l => simp at hlen
  | succ n ih =>
    intro l hlen hP
    match l with
    | [] => exact List.Pairwise.nil
    | [a] => simp [jsMergeSortF]
    | a :: b :: rest =>
      simp only [jsMergeSortF, jsMerge]
      apply pairwise_le_jsMergeF le P htot htr
      · exact le_refl _
      · intro z hz
        rw [mem_jsMergeSortF] at hz
        exact hP z ((List.take_sublist _ _).subset hz)
      · intro z hz
        rw [mem_jsMergeSortF] at hz
        exact hP z ((List.drop_sublist _ _).subset hz)
      · apply ih
        · simp only [List.length_take, List.length_cons] at *
          omega
        · intro z hz
          exact hP z ((List.take_sublist _ _).subset hz)
      · apply ih
        · simp only [List.length_drop, List.length_cons] at *
          omega
        · intro z hz
          exact hP z ((List.drop_sublist _ _).subset hz)

/-- Merging two runs every cross pair of which already compares `≤` simply
concatenates them. -/
theorem jsMergeF_eq_append {α : Type} (le : α → α → Bool) :
    ∀ (fuel : Nat) (xs ys : List α), xs.length + ys.length ≤ fuel →
      (∀ x ∈ xs, ∀ y ∈ ys, le x y = true) →
      jsMergeF le fuel xs ys = xs ++ ys := by
  intro fuel
  induction fuel with
  | zero =>
    intro xs ys hlen hcross
    cases xs with
    | nil => simp [jsMergeF]
    | cons x xs => simp at hlen
  | succ n ih =>
    intro xs ys hlen hcross
    match xs, ys with
    | [], ys => simp [jsMergeF]
    | x :: xs, [] => simp [jsMergeF]
    | x :: xs, y :: ys =>
      have hxy : le x y = true :=
        hcross x (List.mem_cons_self x xs) y (List.mem_cons_self y ys)
      simp only [jsMergeF, hxy, if_true, List.cons_append, List.cons.injEq, true_and]
      apply ih
      · simp at hlen ⊢; omega
      · intro z hz w hw
        exact hcross z (List.mem_cons_of_mem x hz) w hw

/-- Sorting an already `le`-sorted list returns it unchanged. -/
theorem jsMergeSortF_of_pairwise {α : Type} (le : α → α → Bool) :
    ∀ (fuel : Nat) (l : List α), l.Pairwise (fun a b => le a b = true) →
      jsMergeSortF le fuel l = l := by
  intro fuel
  induction fuel with
  | zero => intro l _; rfl
  | succ n ih =>
    intro l hl
    match l with
    | [] => rfl
    | [a] => rfl
    | a :: b :: rest =>
      simp only [jsMergeSortF]
      have hsplit := List.take_append_drop (((a :: b :: rest).length + 1) / 2) (a :: b :: rest)
      have hparts := hl
      rw [← hsplit, List.pairwise_append] at hparts
      rw [ih _ hparts.1, ih _ hparts.2.1]
      rw [jsMerge, jsMergeF_eq_append le _ _ _ (le_refl _) hparts.2.2]
      exact hsplit

/-- Merging keeps an equivalence class together: filtering the merge of a
sorted left run and any right run by a class predicate `q` whose members all
compare `≤` to each other (and with `le` transitive on `P`) yields the left
matches followed by the right matches. -/
theorem filter_jsMergeF {α : Type} (le : α → α → Bool) (P : α → Prop) (q : α → Bool)
    (htr : ∀ a b c, P a → P b → P c → le a b = true → le b c = true → le a c = true)
    (hclass : ∀ a b, P a → P b → q a = true → q b = true → le a b = true) :
    ∀ (fuel : Nat) (xs ys : List α), xs.length + ys.length ≤ fuel →
      (∀ x ∈ xs, P x) → (∀ y ∈ ys, P y) →
      xs.Pairwise (fun a b => le a b = true) →
      (jsMergeF le fuel xs ys).filter q = xs.filter q ++ ys.filter q := by
  intro fuel
  induction fuel with
  | zero =>
    intro xs ys hlen hPxs hPys hsx
    cases xs with
    | nil => simp [jsMergeF]
    | cons x xs => simp at hlen
  | succ n ih =>
    intro xs ys hlen hPxs hPys hsx
    match xs, ys with
    | [], ys => simp [jsMergeF]
    | x :: xs, [] => simp [jsMergeF]
    | x :: xs, y :: ys =>
      simp only [jsMergeF]
      split
      case isTrue h =>
        have hrec : (jsMergeF le n xs (y :: ys)).filter q = xs.filter q ++ (y :: ys).filter q := by
          apply ih
          · simp at hlen ⊢; omega
          · intro z hz; exact hPxs z (List.mem_cons_of_mem x hz)
          · exact hPys
          · exact (List.pairwise_cons.mp hsx).2
        cases hqx : q x with
        | true => simp [List.filter_cons, hqx, hrec]
        | false => simp [List.filter_cons, hqx, hrec]
      case isFalse h =>
        have hle : le x y = false := by
          cases hxy : le x y with
          | false => rfl
          | true => exact absurd hxy h
        have hrec : (jsMergeF le n (x :: xs) ys).filter q = (x :: xs).filter q ++ ys.filter q := by
          apply ih
          · simp at hlen ⊢; omega
          · exact hPxs
          · intro z hz; exact hPys z (List.mem_cons_of_mem y hz)
          · exact hsx
        cases hqy : q y with
        | false => simp [List.filter_cons, hqy, hrec]
        | true =>
          have hempty : (x :: xs).filter q = [] := by
            rw [List.filter_eq_nil_iff]
            intro z hz hqz
            rcases List.mem_cons.mp hz with rfl | hz'
            · have := hclass z y (hPxs z hz) (hPys y (List.mem_cons_self y ys)) hqz hqy
              simp [this] at hle
            · have hxz := (List.pairwise_cons.mp hsx).1 z hz'
              have hzy := hclass z y (hPxs z hz) (hPys y (List.mem_cons_self y ys)) hqz hqy
              have := htr x z y (hPxs x (List.mem_cons_self x xs)) (hPxs z hz)
                (hPys y (List.mem_cons_self y ys)) hxz hzy
              simp [this] at hle
          simp [List.filter_cons, hqy, hrec, hempty]

/-- Stability on an equivalence class: the modelled stable merge sort
preserves the relative order (i.e. the filtered subsequence) of the members of
any class `q` that the comparator treats as mutually `≤`, provided the
comparator is transitive on a class `P` containing every element. -/
theorem filter_jsMergeSortF {α : Type} (le : α → α → Bool) (P : α → Prop) (q : α → Bool)
    (htot : ∀ a b, P a → P b → le a b = true ∨ le b a = true)
    (htr : ∀ a b c, P a → P b → P c → le a b = true → le b c = true → le a c = true)
    (hclass : ∀ a b, P a → P b → q a = true → q b = true → le a b = true) :
    ∀ (fuel : Nat) (l : List α), l.length ≤ fuel → (∀ x ∈ l, P x) →
      (jsMergeSortF le fuel l).filter q = l.filter q := by
  intro fuel
  induction fuel with
  | zero =>
    intro l hlen hP
    cases l with
    | nil => rfl
    | cons a l => simp at hlen
  | succ n ih =>
    intro l hlen hP
    match l with
    | [] => rfl
    | [a] => rfl
    | a :: b :: rest =>
      have hlen2 : (a :: b :: rest).length ≤ n + 1 := hlen
      simp only [List.length_cons] at hlen2
      have htk : ((a :: b :: rest).take (((a :: b :: rest).length + 1) / 2)).length ≤ n := by
        simp only [List.length_take, List.length_cons]
        omega
      have hdp : ((a :: b :: rest).drop (((a :: b :: rest).length + 1) / 2)).length ≤ n := by
        simp only [List.length_drop, List.length_cons]
        omega
      have hPtk : ∀ z ∈ (a :: b :: rest).take (((a :: b :: rest).length + 1) / 2), P z :=
        fun z hz => hP z ((List.take_sublist _ _).subset hz)
      have hPdp : ∀ z ∈ (a :: b :: rest).drop (((a :: b :: rest).length + 1) / 2), P z :=
        fun z hz => hP z ((List.drop_sublist _ _).subset hz)
      have hPtk2 : ∀ z ∈ jsMergeSortF le n
          ((a :: b :: rest).take (((a :: b :: rest).length + 1) / 2)), P z := by
        intro z hz
        rw [mem_jsMergeSortF] at hz
        exact hPtk z hz
      have hPdp2 : ∀ z ∈ jsMergeSortF le n
          ((a :: b :: rest).drop (((a :: b :: rest).length + 1) / 2)), P z := by
        intro z hz
        rw [mem_jsMergeSortF] at hz
        exact hPdp z hz
      have hsorted := pairwise_le_jsMergeSortF le P htot htr n
        ((a :: b :: rest).take (((a :: b :: rest).length + 1) / 2)) htk hPtk
      simp only [jsMergeSortF, jsMerge]
      rw [filter_jsMergeF le P q htr hclass _ _ _ (le_refl _) hPtk2 hPdp2 hsorted]
      rw [ih _ htk hPtk, ih _ hdp hPdp]
      rw [← List.filter_append, List.take_append_drop]

/-! ## Comparator analysis -/

/-- The buffer priority key of an item: bottom for an undefined or focused
`bufNr` (such items sort first), otherwise the numeric `bufNr`. -/
def fBuf (curBufNr : Int) (it : ItemDiagnostic) : WithBot Int :=
  match it.action.bufNr with
  | none => ⊥
  | some n => if n = curBufNr then ⊥ else (n : WithBot Int)

/-- Whether an item belongs to the class the comparator always sorts first:
undefined `bufNr` or the focused buffer. -/
def isPrioritized (curBufNr : Int) (it : ItemDiagnostic) : Bool :=
  it.action.bufNr.isNone || it.action.bufNr == some curBufNr

theorem fBuf_eq_bot_iff (curBufNr : Int) (it : ItemDiagnostic) :
    fBuf curBufNr it = ⊥ ↔ isPrioritized curBufNr it = true := by
  unfold fBuf isPrioritized
  match h : it.action.bufNr with
  | none => simp
  | some n =>
    by_cases hn : n = curBufNr <;> simp [hn]

theorem fBuf_of_not_prioritized (curBufNr : Int) (it : ItemDiagnostic)
    (h : isPrioritized curBufNr it = false) :
    fBuf curBufNr it = (it.action.bufNr.getD 0 : Int) := by
  unfold isPrioritized at h
  unfold fBuf
  match hb : it.action.bufNr with
  | none => simp [hb] at h
  | some n =>
    simp [hb] at h
    simp [h]

/-- The buffer priority key is compatible with the comparator: a strictly
`fBuf`-smaller item compares `-1` or negative, and the reverse comparison is
positive. This is the backbone of the cross-buffer ordering. -/
theorem fBuf_compat (curBufNr : Int) (a b : ItemDiagnostic)
    (h : fBuf curBufNr a < fBuf curBufNr b) :
    leItem curBufNr a b = true ∧ leItem curBufNr b a = false := by
  unfold fBuf at h
  unfold leItem cmpItem
  match ha : a.action.bufNr, hb : b.action.bufNr with
  | none, none => simp [ha, hb] at h
  | none, some m =>
    by_cases hm : m = curBufNr
    · simp [ha, hb, hm] at h
    · simp only [ha, hb]
      have hcm : ¬(m ≠ 0 ∧ (none : Option Int) = some m) := by simp
      simp [hcm, hm]
  | some n, none =>
    by_cases hn : n = curBufNr <;> simp [ha, hb, hn] at h
  | some n, some m =>
    by_cases hn : n = curBufNr
    · by_cases hm : m = curBufNr
      · simp [ha, hb, hn, hm] at h
      · have hcm : (curBufNr = m) ↔ False := by
          simp only [iff_false]
          omega
        simp [ha, hb, hn, hm, hcm]
    · by_cases hm : m = curBufNr
      · simp [ha, hb, hn, hm] at h
      · simp only [ha, hb, hn, hm, if_false] at h
        rw [WithBot.coe_lt_coe] at h
        have hnm : n ≠ m := by omega
        simp only [ha, hb]
        have hca : ¬(n ≠ 0 ∧ (some m : Option Int) = some n) := by
          rintro ⟨-, hc⟩
          rw [Option.some.injEq] at hc
          omega
        have hcb : ¬(m ≠ 0 ∧ (some n : Option Int) = some m) := by
          rintro ⟨-, hc⟩
          rw [Option.some.injEq] at hc
          omega
        simp only [hca, hcb, if_false, hn, hm]
        constructor
        · simp only [decide_eq_true_eq]
          omega
        · simp only [decide_eq_false_iff_not]
          omega

/-- C3: In the sorter's output, for every input list and focused buffer id,
every item whose `bufNr` is undefined or equal to the focused buffer id
precedes every item whose `bufNr` is defined and different from the focused
buffer id; items for which neither side is undefined/focused are ordered by
numeric `bufNr` ascending. -/
theorem sorted_prioritized_before_other_buffers (items : List ItemDiagnostic) (curBufNr : Int) :
    (sortItemDiagnostic items curBufNr).Pairwise (fun a b =>
      (isPrioritized curBufNr b = true → isPrioritized curBufNr a = true) ∧
      (isPrioritized curBufNr a = false → isPrioritized curBufNr b = false →
        a.action.bufNr.getD 0 ≤ b.action.bufNr.getD 0)) := by
  have hpw := pairwise_jsMergeSortF_of_compat (fBuf curBufNr) (leItem curBufNr)
    (fun _ => True) (fun a b _ _ h => fBuf_compat curBufNr a b h)
    items.length items (le_refl _) (fun _ _ => trivial)
  unfold sortItemDiagnostic
  apply hpw.imp
  intro a b hab
  constructor
  · intro hb
    rw [← fBuf_eq_bot_iff] at hb ⊢
    rw [hb] at hab
    exact le_bot_iff.mp hab
  · intro hna hnb
    rw [fBuf_of_not_prioritized _ _ hna, fBuf_of_not_prioritized _ _ hnb] at hab
    exact_mod_cast hab

/-- On two items carrying the same truthy `bufNr` and defined severities, the
comparator reduces to severity difference with line-number tie-break. -/
theorem cmpItem_sameBuf (curBufNr k sa sb : Int) (a b : ItemDiagnostic) (hk : k ≠ 0)
    (hba : a.action.bufNr = some k) (hbb : b.action.bufNr = some k)
    (hsa : a.data.severity = some sa) (hsb : b.data.severity = some sb) :
    cmpItem curBufNr a b =
      if sa = sb then a.action.lineNr - b.action.lineNr else sa - sb := by
  unfold cmpItem
  simp only [hba, hbb, hsa, hsb]
  rw [if_pos ⟨hk, trivial⟩]
  by_cases hs : sa = sb
  · simp [hs]
  · have hss : ((some sa : Option Int) = some sb) ↔ False := by simp [hs]
    simp [hss, hs]

/-- The class of items carrying one fixed defined `bufNr` and a defined
severity — the restriction on which the comparator is consistent. -/
def sameBufDefinedSev (k : Int) (it : ItemDiagnostic) : Prop :=
  it.action.bufNr = some k ∧ it.data.severity.isSome = true

theorem leItem_total_sameBuf (curBufNr k : Int) (hk : k ≠ 0) :
    ∀ a b, sameBufDefinedSev k a → sameBufDefinedSev k b →
      leItem curBufNr a b = true ∨ leItem curBufNr b a = true := by
  intro a b hPa hPb
  obtain ⟨hba, hsa'⟩ := hPa
  obtain ⟨hbb, hsb'⟩ := hPb
  obtain ⟨sa, hsa⟩ := Option.isSome_iff_exists.mp hsa'
  obtain ⟨sb, hsb⟩ := Option.isSome_iff_exists.mp hsb'
  unfold leItem
  rw [cmpItem_sameBuf curBufNr k sa sb a b hk hba hbb hsa hsb,
    cmpItem_sameBuf curBufNr k sb sa b a hk hbb hba hsb hsa]
  have h : ((if sa = sb then a.action.lineNr - b.action.lineNr else sa - sb) ≤ 0) ∨
      ((if sb = sa then b.action.lineNr - a.action.lineNr else sb - sa) ≤ 0) := by
    split_ifs <;> omega
  rcases h with h | h
  · exact Or.inl (decide_eq_true h)
  · exact Or.inr (decide_eq_true h)

theorem leItem_trans_sameBuf (curBufNr k : Int) (hk : k ≠ 0) :
    ∀ a b c, sameBufDefinedSev k a → sameBufDefinedSev k b → sameBufDefinedSev k c →
      leItem curBufNr a b = true → leItem curBufNr b c = true →
      leItem curBufNr a c = true := by
  intro a b c hPa hPb hPc hab hbc
  obtain ⟨hba, hsa'⟩ := hPa
  obtain ⟨hbb, hsb'⟩ := hPb
  obtain ⟨hbc2, hsc'⟩ := hPc
  obtain ⟨sa, hsa⟩ := Option.isSome_iff_exists.mp hsa'
  obtain ⟨sb, hsb⟩ := Option.isSome_iff_exists.mp hsb'
  obtain ⟨sc, hsc⟩ := Option.isSome_iff_exists.mp hsc'
  unfold leItem at hab hbc ⊢
  rw [cmpItem_sameBuf curBufNr k sa sb a b hk hba hbb hsa hsb] at hab
  rw [cmpItem_sameBuf curBufNr k sb sc b c hk hbb hbc2 hsb hsc] at hbc
  rw [cmpItem_sameBuf curBufNr k sa sc a c hk hba hbc2 hsa hsc]
  rw [decide_eq_true_eq] at hab hbc ⊢
  split_ifs at hab hbc ⊢ <;> omega

/-- Items with one fixed severity and line number all compare `≤ 0` to each
other: they form an equivalence class of the comparator. -/
theorem leItem_class_sameBuf (curBufNr k s l0 : Int) (hk : k ≠ 0) :
    ∀ a b, sameBufDefinedSev k a → sameBufDefinedSev k b →
      (a.data.severity == some s && a.action.lineNr == l0) = true →
      (b.data.severity == some s && b.action.lineNr == l0) = true →
      leItem curBufNr a b = true := by
  intro a b hPa hPb hqa hqb
  obtain ⟨hba, -⟩ := hPa
  obtain ⟨hbb, -⟩ := hPb
  rw [Bool.and_eq_true, beq_iff_eq, beq_iff_eq] at hqa hqb
  unfold leItem
  rw [cmpItem_sameBuf curBufNr k s s a b hk hba hbb hqa.1 hqb.1]
  rw [decide_eq_true_eq, if_pos rfl, hqa.2, hqb.2]
  omega

/-- The lexicographic (severity, line) key is compatible with the comparator
on the same-buffer defined-severity class. -/
theorem leItem_lex_compat (curBufNr k : Int) (hk : k ≠ 0) (a b : ItemDiagnostic)
    (hPa : sameBufDefinedSev k a) (hPb : sameBufDefinedSev k b)
    (h : toLex (a.data.severity.getD 1, a.action.lineNr) <
      toLex (b.data.severity.getD 1, b.action.lineNr)) :
    leItem curBufNr a b = true ∧ leItem curBufNr b a = false := by
  obtain ⟨hba, hsa'⟩ := hPa
  obtain ⟨hbb, hsb'⟩ := hPb
  obtain ⟨sa, hsa⟩ := Option.isSome_iff_exists.mp hsa'
  obtain ⟨sb, hsb⟩ := Option.isSome_iff_exists.mp hsb'
  rw [Prod.Lex.lt_iff] at h
  simp only [hsa, hsb, Option.getD_some] at h
  unfold leItem
  rw [cmpItem_sameBuf curBufNr k sa sb a b hk hba hbb hsa hsb,
    cmpItem_sameBuf curBufNr k sb sa b a hk hbb hba hsb hsa]
  refine ⟨decide_eq_true ?_, decide_eq_false ?_⟩
  · rcases h with h | ⟨heq, hlt⟩ <;> split_ifs <;> omega
  · rcases h with h | ⟨heq, hlt⟩ <;> split_ifs <;> omega

/-- A minimal diagnostic item for concrete sorter inputs: the sorter only
inspects `action.bufNr`, `action.lineNr` and `data.severity`. -/
def mkItem (bufNr : Option Int) (lineNr : Int) (severity : Option Int) : ItemDiagnostic :=
  { word := ""
    action := { path := none, bufNr := bufNr, lineNr := lineNr, col := 1 }
    data := { range := ⟨⟨0, 0⟩, ⟨0, 0⟩⟩, message := "", severity := severity, bufNr := bufNr } }

/-- C2 counterexample: with focused buffer 1 and two items sharing the defined
`bufNr` 1 — the first with undefined severity (effective severity 1) on line
10, the second with severity 1 (Error) on line 5 — the comparator returns 0
both ways (the source skips the line tie-break because the severity *fields*
differ even though the effective severities agree), every stable sort keeps
the input order, and the output decreases in line number at equal effective
severity, refuting the claimed ordering. -/
theorem sorted_severity_line_counterexample :
    ¬ ((sortItemDiagnostic [mkItem (some 1) 10 none, mkItem (some 1) 5 (some 1)] 1).Pairwise
      (fun a b => a.action.bufNr.isSome = true → a.action.bufNr = b.action.bufNr →
        a.data.severity.getD 1 ≤ b.data.severity.getD 1 ∧
          (a.data.severity.getD 1 = b.data.severity.getD 1 →
            a.action.lineNr ≤ b.action.lineNr))) := by
  decide

/-- C2 (amended): for input lists whose items all share one defined nonzero
`bufNr` and all carry a defined severity, the sorter's output is non-decreasing
in severity, and among items of equal severity non-decreasing in 1-based line
number. (The amendment restricts the claim to inputs on which the comparator
is consistent: an undefined severity compares equal to severity 1 *without*
the line tie-break, and in the modelled stable merge sort items of other
buffers interleaved between same-buffer items can likewise break the order, so
the unrestricted claim fails.) -/
theorem sorted_severity_then_line_sameBuffer (items : List ItemDiagnostic) (curBufNr k : Int)
    (hk : k ≠ 0)
    (hall : ∀ it ∈ items, it.action.bufNr = some k ∧ it.data.severity.isSome = true) :
    (sortItemDiagnostic items curBufNr).Pairwise (fun a b =>
      a.data.severity.getD 1 ≤ b.data.severity.getD 1 ∧
        (a.data.severity.getD 1 = b.data.severity.getD 1 → a.action.lineNr ≤ b.action.lineNr)) := by
  have hpw := pairwise_jsMergeSortF_of_compat
    (fun it => toLex (it.data.severity.getD 1, it.action.lineNr))
    (leItem curBufNr) (sameBufDefinedSev k)
    (fun a b hPa hPb h => leItem_lex_compat curBufNr k hk a b hPa hPb h)
    items.length items (le_refl _) hall
  unfold sortItemDiagnostic
  apply hpw.imp
  intro a b hab
  rw [Prod.Lex.le_iff] at hab
  constructor
  · rcases hab with h | ⟨h, -⟩
    · exact le_of_lt h
    · exact le_of_eq h
  · intro hs
    rcases hab with h | ⟨-, h⟩
    · simp only at h
      omega
    · exact h

theorem sorted_severity_then_line_sameBuffer_witness :
    (((2 : Int) ≠ 0 ∧ ∀ it ∈ [mkItem (some 2) 4 (some 2), mkItem (some 2) 3 (some 1)],
        it.action.bufNr = some 2 ∧ it.data.severity.isSome = true) ∧
      (sortItemDiagnostic [mkItem (some 2) 4 (some 2), mkItem (some 2) 3 (some 1)] 1).Pairwise
        (fun a b => a.data.severity.getD 1 ≤ b.data.severity.getD 1 ∧
          (a.data.severity.getD 1 = b.data.severity.getD 1 →
            a.action.lineNr ≤ b.action.lineNr))) :=
  ⟨⟨by decide, by decide⟩,
    sorted_severity_then_line_sameBuffer
      [mkItem (some 2) 4 (some 2), mkItem (some 2) 3 (some 1)] 1 2 (by decide) (by decide)⟩

/-- C4 counterexample. First input (focused buffer 1, all items in buffer 1):
`[line 9/no severity, line 5/severity 1, line 4/no severity]`. The last two
items compare equal both ways (`cmpItem = 0`), yet the modelled stable merge
sort emits the line-4 item *before* the line-5 item — equal-comparing items do
not retain their input order, because the comparator is not consistent (the
line-9 item separates them). Second input: sorting
`[buffer 2/line 1, buffer 1/line 2, no buffer/line 1, buffer 1/line 1]` once
and then again yields a different sequence — the sort is not idempotent. -/
theorem sort_stability_idempotence_counterexample :
    (sortItemDiagnostic
        [mkItem (some 1) 9 none, mkItem (some 1) 5 (some 1), mkItem (some 1) 4 none] 1
      = [mkItem (some 1) 4 none, mkItem (some 1) 9 none, mkItem (some 1) 5 (some 1)]) ∧
    cmpItem 1 (mkItem (some 1) 5 (some 1)) (mkItem (some 1) 4 none) = 0 ∧
    cmpItem 1 (mkItem (some 1) 4 none) (mkItem (some 1) 5 (some 1)) = 0 ∧
    mkItem (some 1) 5 (some 1) ≠ mkItem (some 1) 4 none ∧
    sortItemDiagnostic (sortItemDiagnostic
        [mkItem (some 2) 1 none, mkItem (some 1) 2 none, mkItem none 1 none,
          mkItem (some 1) 1 none] 1) 1
      ≠ sortItemDiagnostic
        [mkItem (some 2) 1 none, mkItem (some 1) 2 none, mkItem none 1 none,
          mkItem (some 1) 1 none] 1 := by
  exact ⟨by decide, by decide, by decide, by decide, by decide⟩

/-- C4 (amended): on input lists whose items all share one defined nonzero
`bufNr` and all carry a defined severity — the restriction on which the
comparator is a consistent total preorder — the diagnostic sort is idempotent,
and it is stable in the sense that the subsequence of items with any fixed
severity and line number (exactly the items the comparator ranks equal) is
preserved from input to output. -/
theorem sort_idempotent_and_stable_sameBuffer (items : List ItemDiagnostic) (curBufNr k : Int)
    (hk : k ≠ 0)
    (hall : ∀ it ∈ items, it.action.bufNr = some k ∧ it.data.severity.isSome = true) :
    sortItemDiagnostic (sortItemDiagnostic items curBufNr) curBufNr
        = sortItemDiagnostic items curBufNr ∧
      ∀ s l0 : Int,
        (sortItemDiagnostic items curBufNr).filter
            (fun it => it.data.severity == some s && it.action.lineNr == l0)
          = items.filter (fun it => it.data.severity == some s && it.action.lineNr == l0) := by
  constructor
  · have hsorted := pairwise_le_jsMergeSortF (leItem curBufNr) (sameBufDefinedSev k)
      (leItem_total_sameBuf curBufNr k hk) (leItem_trans_sameBuf curBufNr k hk)
      items.length items (le_refl _) hall
    unfold sortItemDiagnostic
    exact jsMergeSortF_of_pairwise _ _ _ hsorted
  · intro s l0
    unfold sortItemDiagnostic
    exact filter_jsMergeSortF (leItem curBufNr) (sameBufDefinedSev k) _
      (leItem_total_sameBuf curBufNr k hk) (leItem_trans_sameBuf curBufNr k hk)
      (leItem_class_sameBuf curBufNr k s l0 hk) items.length items (le_refl _) hall

theorem sort_idempotent_and_stable_sameBuffer_witness :
    (((3 : Int) ≠ 0 ∧ ∀ it ∈ [mkItem (some 3) 2 (some 1), mkItem (some 3) 1 (some 1)],
        it.action.bufNr = some 3 ∧ it.data.severity.isSome = true) ∧
      (sortItemDiagnostic (sortItemDiagnostic
            [mkItem (some 3) 2 (some 1), mkItem (some 3) 1 (some 1)] 1) 1
          = sortItemDiagnostic [mkItem (some 3) 2 (some 1), mkItem (some 3) 1 (some 1)] 1 ∧
        ∀ s l0 : Int,
          (sortItemDiagnostic [mkItem (some 3) 2 (some 1), mkItem (some 3) 1 (some 1)] 1).filter
              (fun it => it.data.severity == some s && it.action.lineNr == l0)
            = [mkItem (some 3) 2 (some 1), mkItem (some 3) 1 (some 1)].filter
                (fun it => it.data.severity == some s && it.action.lineNr == l0))) :=
  ⟨⟨by decide, by decide⟩,
    sort_idempotent_and_stable_sameBuffer
      [mkItem (some 3) 2 (some 1), mkItem (some 3) 1 (some 1)] 1 3 (by decide) (by decide)⟩

/-- C1: For every fixture diagnostic describing the same issue (same start and
end line/character offsets, same severity, same message), the three backend
adapters — nvim-lsp, coc.nvim, vim-lsp — produce canonical records whose
`range`, `severity` and `message` fields are pairwise identical: coc.nvim's
severity name maps through {Error:1, Warning:2, Info:3, Hint:4} to the ordinal
the other two carry numerically, and nvim-lsp's lnum/end_lnum/col/end_col
offsets compose into the same range object that coc.nvim and vim-lsp copy
through. -/
theorem adapters_normalize_equivalently
    (n : NvimLspDiagnostic) (c : CocDiagnostic) (v : Diagnostic) (p : String)
    (hsl : n.lnum = c.location.range.start.line)
    (hsc : n.col = c.location.range.start.character)
    (hel : n.end_lnum = c.location.range.«end».line)
    (hec : n.end_col = c.location.range.«end».character)
    (hvr : v.range = c.location.range)
    (hnsev : n.severity = some (Severity c.severity))
    (hvsev : v.severity = some (Severity c.severity))
    (hnmsg : n.message = c.message)
    (hvmsg : v.message = c.message) :
    ((nvimMapOne n).range = (cocMapOne c).range ∧
        (cocMapOne c).range = (vimMapOne p v).range) ∧
      ((nvimMapOne n).severity = (cocMapOne c).severity ∧
        (cocMapOne c).severity = (vimMapOne p v).severity) ∧
      ((nvimMapOne n).message = (cocMapOne c).message ∧
        (cocMapOne c).message = (vimMapOne p v).message) := by
  refine ⟨⟨?_, ?_⟩, ⟨?_, ?_⟩, ⟨?_, ?_⟩⟩ <;>
    simp [nvimMapOne, cocMapOne, vimMapOne, hsl, hsc, hel, hec, hvr, hnsev, hvsev, hnmsg, hvmsg]

/-- A shared fixture range for concrete inputs. -/
def fixtureRange : Range := ⟨⟨2, 1⟩, ⟨2, 7⟩⟩

def fixtureNvim : NvimLspDiagnostic :=
  { message := "m", severity := some 2, lnum := 2, end_lnum := 2, col := 1, end_col := 7,
    bufnr := 7 }

def fixtureCoc : CocDiagnostic :=
  { message := "m", file := "/a", location := ⟨"file:///a", fixtureRange⟩, severity := .Warning }

def fixtureVim : Diagnostic :=
  { range := fixtureRange, severity := some 2, message := "m" }

theorem adapters_normalize_equivalently_witness :
    (fixtureNvim.lnum = fixtureCoc.location.range.start.line ∧
        fixtureNvim.col = fixtureCoc.location.range.start.character ∧
        fixtureNvim.end_lnum = fixtureCoc.location.range.«end».line ∧
        fixtureNvim.end_col = fixtureCoc.location.range.«end».character ∧
        fixtureVim.range = fixtureCoc.location.range ∧
        fixtureNvim.severity = some (Severity fixtureCoc.severity) ∧
        fixtureVim.severity = some (Severity fixtureCoc.severity) ∧
        fixtureNvim.message = fixtureCoc.message ∧
        fixtureVim.message = fixtureCoc.message) ∧
      ((nvimMapOne fixtureNvim).range = (cocMapOne fixtureCoc).range ∧
          (cocMapOne fixtureCoc).range = (vimMapOne "/a" fixtureVim).range) ∧
        ((nvimMapOne fixtureNvim).severity = (cocMapOne fixtureCoc).severity ∧
          (cocMapOne fixtureCoc).severity = (vimMapOne "/a" fixtureVim).severity) ∧
        ((nvimMapOne fixtureNvim).message = (cocMapOne fixtureCoc).message ∧
          (cocMapOne fixtureCoc).message = (vimMapOne "/a" fixtureVim).message) :=
  ⟨⟨rfl, rfl, rfl, rfl, rfl, rfl, rfl, rfl, rfl⟩,
    adapters_normalize_equivalently fixtureNvim fixtureCoc fixtureVim "/a"
      rfl rfl rfl rfl rfl rfl rfl rfl rfl⟩

/-- A shared all-zero range for concrete inputs. -/
def zeroRange : Range := ⟨⟨0, 0⟩, ⟨0, 0⟩⟩

/-- C5: Location resolution is total — a raw entry carrying `uri` and `range`
resolves to exactly that location, one carrying `targetUri` and
`targetSelectionRange` resolves to exactly that pair — and every resolved
location whose uri matches the blocked pattern (scheme `deno:` followed,
without crossing a line terminator, by `%23` and then one of `%5E`, `%7E`,
`%3C`, `%3D`, e.g. `deno:/foo%23%5Efragment`) is excluded from the emitted
items of both the single-target handler and the references handler. -/
theorem location_resolution_total_and_deno_filtered :
    (∀ l : Location, toLocation (.loc l) = l) ∧
      (∀ k : LocationLink,
        toLocation (.link k) = { uri := k.targetUri, range := k.targetSelectionRange }) ∧
      isDenoUriWithFragment { uri := "deno:/foo%23%5Efragment", range := zeroRange } = true ∧
      (∀ response : List ResponseEntry,
        definitionHandler response =
          ((definitionLocations response).filter (fun l => !isDenoUriWithFragment l)).map
            locationToItem ∧
        ∀ l ∈ (definitionLocations response).filter (fun l => !isDenoUriWithFragment l),
          isDenoUriWithFragment l = false) ∧
      (∀ response : List RefResponseEntry,
        referencesHandler response =
          ((response.flatMap (fun r => r.result)).filter (fun l => !isDenoUriWithFragment l)).map
            locationToItem ∧
        ∀ l ∈ (response.flatMap (fun r => r.result)).filter (fun l => !isDenoUriWithFragment l),
          isDenoUriWithFragment l = false) := by
  refine ⟨fun l => rfl, fun k => rfl, by decide,
    fun response => ⟨rfl, ?_⟩, fun response => ⟨rfl, ?_⟩⟩
  · intro l hl
    have h := (List.mem_filter.mp hl).2
    simpa using h
  · intro l hl
    have h := (List.mem_filter.mp hl).2
    simpa using h

def fixtureResponse : List ResponseEntry :=
  [⟨1, .array [.loc ⟨"deno:/a%23%5Eb", zeroRange⟩, .loc ⟨"file:///ok", zeroRange⟩]⟩]

theorem location_resolution_total_and_deno_filtered_witness :
    ((⟨"file:///ok", zeroRange⟩ : Location) ∈
        (definitionLocations fixtureResponse).filter (fun l => !isDenoUriWithFragment l)) ∧
      isDenoUriWithFragment ⟨"file:///ok", zeroRange⟩ = false :=
  ⟨by decide,
    (location_resolution_total_and_deno_filtered.2.2.2.1 fixtureResponse).2
      ⟨"file:///ok", zeroRange⟩ (by decide)⟩

/-- C6: When a buffer scope is given (a resolved nonzero buffer id whose
resolved uri is nonempty), the coc.nvim adapter outputs exactly those raw
records whose `location.uri` equals the uri resolved for that buffer, and all
records when the scope is null; every output record's `severity` is the
ordinal obtained from the {Error:1, Warning:2, Info:3, Hint:4} table, its
`path` equals the raw `file` field, and its `range` equals the raw
`location.range`. -/
theorem coc_adapter_filter_and_fields
    (resolveUri : Int → Except String String) (raws : List CocDiagnostic)
    (n : Int) (u : String) (hn : n ≠ 0) (hu : resolveUri n = .ok u) (hne : u ≠ "") :
    getCocDiagnostics resolveUri (.ok (some raws)) (some n)
        = .ok (some ((raws.filter (fun d => d.location.uri = u)).map cocMapOne)) ∧
      getCocDiagnostics resolveUri (.ok (some raws)) none
        = .ok (some (raws.map cocMapOne)) ∧
      ∀ d : CocDiagnostic, (cocMapOne d).severity = some (Severity d.severity) ∧
        (cocMapOne d).path = some d.file ∧ (cocMapOne d).range = d.location.range := by
  refine ⟨?_, ?_, fun d => ⟨rfl, rfl, rfl⟩⟩
  · have h1 : getCocDiagnostics resolveUri (.ok (some raws)) (some n)
        = .ok (some (cocAdapter (some u) raws)) := by
      simp only [getCocDiagnostics, cocUriOf]
      rw [if_neg hn, hu]
      rfl
    rw [h1]
    have h2 : cocAdapter (some u) raws
        = (raws.filter (fun d => d.location.uri = u)).map cocMapOne := by
      unfold cocAdapter
      congr 1
      apply List.filter_congr
      intro d _
      unfold cocKeep
      simp [hne]
    rw [h2]
  · have h1 : getCocDiagnostics resolveUri (.ok (some raws)) none
        = .ok (some (cocAdapter none raws)) := rfl
    rw [h1]
    have h2 : cocAdapter none raws = raws.map cocMapOne := by
      unfold cocAdapter
      congr 1
      simp [cocKeep]
    rw [h2]

def fixtureCocOther : CocDiagnostic :=
  { message := "n", file := "/b", location := ⟨"file:///b", zeroRange⟩, severity := .Error }

theorem coc_adapter_filter_and_fields_witness :
    (((7 : Int) ≠ 0 ∧ (fun (_ : Int) => (Except.ok "file:///a" : Except String String)) 7
          = .ok "file:///a" ∧ ("file:///a" : String) ≠ "") ∧
      getCocDiagnostics (fun (_ : Int) => (Except.ok "file:///a" : Except String String)) (.ok (some [fixtureCoc, fixtureCocOther]))
          (some 7)
        = .ok (some (([fixtureCoc, fixtureCocOther].filter
            (fun d => d.location.uri = "file:///a")).map cocMapOne))) :=
  ⟨⟨by decide, rfl, by decide⟩,
    (coc_adapter_filter_and_fields (fun _ => Except.ok "file:///a") [fixtureCoc, fixtureCocOther]
      7 "file:///a" (by decide) rfl (by decide)).1⟩

/-- C7: Building an item from a canonical diagnostic yields `word` equal to
the message truncated at its first newline (message `"foo\nbar"` yields word
`"foo"`) and an action with `lineNr = range.start.line + 1` and
`col = range.start.character + 1`; building from the location resolved from
`targetUri "file:///x.ts"` / `targetSelectionRange` starting at line 4,
character 1 yields the action `{path := "/x.ts", lineNr := 5, col := 2}`, with
the display label using the extracted file-system path for `file:` URIs and
the raw URI otherwise. -/
theorem item_builder_word_and_coordinates :
    (∀ d : DduDiagnostic,
      (diagnosticToItem d).word = String.mk (d.message.data.takeWhile (· ≠ '\n')) ∧
      (diagnosticToItem d).action.lineNr = d.range.start.line + 1 ∧
      (diagnosticToItem d).action.col = d.range.start.character + 1 ∧
      (diagnosticToItem d).action.path = d.path ∧
      (diagnosticToItem d).action.bufNr = d.bufNr ∧
      (diagnosticToItem d).data = d) ∧
      (diagnosticToItem { range := zeroRange, message := "foo\nbar" }).word = "foo" ∧
      locationToItem (toLocation (.link
          { targetUri := "file:///x.ts", targetRange := ⟨⟨4, 1⟩, ⟨4, 5⟩⟩,
            targetSelectionRange := ⟨⟨4, 1⟩, ⟨4, 5⟩⟩ }))
        = { word := "/x.ts", display := "/x.ts:5:2",
            action := { path := "/x.ts", lineNr := 5, col := 2 } } ∧
      (∀ loc : Location, List.isPrefixOf "file:".data loc.uri.data = false →
        (locationToItem loc).word = loc.uri ∧ (locationToItem loc).action.path = loc.uri) ∧
      (∀ loc : Location, List.isPrefixOf "file:".data loc.uri.data = true →
        (locationToItem loc).word = urlPathname loc.uri ∧
          (locationToItem loc).action.path = urlPathname loc.uri) := by
  refine ⟨fun d => ⟨rfl, rfl, rfl, rfl, rfl, rfl⟩, by decide, by decide, ?_, ?_⟩
  · intro loc h
    unfold locationToItem
    simp [h]
  · intro loc h
    unfold locationToItem
    simp [h]

theorem item_builder_word_and_coordinates_witness :
    ((List.isPrefixOf "file:".data ("deno:/x" : String).data = false) ∧
        (locationToItem ⟨"deno:/x", zeroRange⟩).word = "deno:/x" ∧
        (locationToItem ⟨"deno:/x", zeroRange⟩).action.path = "deno:/x") :=
  ⟨by decide,
    (item_builder_word_and_coordinates.2.2.2.1 ⟨"deno:/x", zeroRange⟩ (by decide)).1,
    (item_builder_word_and_coordinates.2.2.2.1 ⟨"deno:/x", zeroRange⟩ (by decide)).2⟩

/-- C8: Requesting the nvim-lsp client on a vim host fails with an error
naming the unavailable client and the host; every failure of the diagnostic
pipeline is caught at the orchestrator boundary, reported to the logging
collaborator under the source name, and the caller receives an empty result —
no partial batch is emitted and no fault propagates. -/
theorem unavailable_client_and_error_boundary :
    (∀ (nvimFetch : Option Int → Except String (Option (List NvimLspDiagnostic)))
        (bufNr : Option Int),
      getNvimLspDiagnostics "vim" nvimFetch bufNr
        = .error "Client 'nvim-lsp' is not available in vim") ∧
      (∀ (br : Bridges) (buffer : BufferParam) (ctxBufNr : Int),
        br.host = "vim" → buffersOf buffer ≠ [] →
        gather br "nvim-lsp" buffer ctxBufNr
          = { batches := [],
              errors := [("Client 'nvim-lsp' is not available in vim", "lsp_diagnostic")] }) ∧
      (∀ (br : Bridges) (clientName : String) (buffer : BufferParam) (ctxBufNr : Int)
          (e : String),
        gatherPipeline br clientName buffer ctxBufNr = .error e →
        gather br clientName buffer ctxBufNr
          = { batches := [], errors := [(e, "lsp_diagnostic")] }) ∧
      (∀ (br : Bridges) (clientName : String) (buffer : BufferParam) (ctxBufNr : Int)
          (items : List ItemDiagnostic),
        gatherPipeline br clientName buffer ctxBufNr = .ok items →
        gather br clientName buffer ctxBufNr = { batches := [items], errors := [] }) := by
  refine ⟨?_, ?_, ?_, ?_⟩
  · intro nvimFetch bufNr
    unfold getNvimLspDiagnostics
    rw [if_pos rfl]
  · intro br buffer ctx hhost hne
    obtain ⟨b, bs, hb⟩ := List.exists_cons_of_ne_nil hne
    have hget : ∀ bufNr, getDiagnostic br "nvim-lsp" bufNr
        = Except.error "Client 'nvim-lsp' is not available in vim" := by
      intro bufNr
      unfold getDiagnostic getNvimLspDiagnostics
      rw [if_pos rfl, hhost, if_pos rfl]
    have hpipe : gatherPipeline br "nvim-lsp" buffer ctx
        = Except.error "Client 'nvim-lsp' is not available in vim" := by
      unfold gatherPipeline
      rw [hb, List.foldlM_cons]
      simp only [hget]
      rfl
    unfold gather
    rw [hpipe]
  · intro br clientName buffer ctx e h
    unfold gather
    rw [h]
  · intro br clientName buffer ctx items h
    unfold gather
    rw [h]

def bridgesVim : Bridges :=
  { host := "vim"
    nvimFetch := fun _ => .ok none
    resolveUri := fun _ => .ok "file:///a"
    cocFetch := .ok none
    vimFetchForUri := fun _ => .ok []
    vimFetchAll := .ok [] }

theorem unavailable_client_and_error_boundary_witness :
    (bridgesVim.host = "vim" ∧ buffersOf .null ≠ []) ∧
      gather bridgesVim "nvim-lsp" .null 1
        = { batches := [],
            errors := [("Client 'nvim-lsp' is not available in vim", "lsp_diagnostic")] } :=
  ⟨⟨rfl, by decide⟩,
    unavailable_client_and_error_boundary.2.1 bridgesVim .null 1 rfl (by decide)⟩

/-- C9: The sanitizer keeps exactly the protocol-defined field set — every
field of every output record is one of {range, severity, code,
codeDescription, source, message, tags, relatedInformation, data}, so `bufNr`,
`path` and any other backend-added extra field are absent — protocol fields
present in the input are retained, and the sanitizer is total, producing one
output record per input record. -/
theorem sanitizer_keeps_only_protocol_fields (records : List (List (String × String))) :
    (getProperDiagnosticsRec records).length = records.length ∧
      (∀ r ∈ records, ∀ kv ∈ pick r properKeys, kv.1 ∈ properKeys) ∧
      (∀ r ∈ records, ∀ kv ∈ pick r properKeys, kv.1 ≠ "bufNr" ∧ kv.1 ≠ "path") ∧
      (∀ r ∈ records, ∀ kv ∈ r, kv.1 ∈ properKeys → kv ∈ pick r properKeys) ∧
      getProperDiagnosticsRec records = records.map (fun r => pick r properKeys) := by
  have hmem : ∀ (r : List (String × String)), ∀ kv ∈ pick r properKeys, kv.1 ∈ properKeys := by
    intro r kv hkv
    have h := (List.mem_filter.mp hkv).2
    exact List.mem_of_elem_eq_true h
  refine ⟨by simp [getProperDiagnosticsRec], fun r _ => hmem r, ?_, ?_, rfl⟩
  · intro r _ kv hkv
    have h := hmem r kv hkv
    have hb : ("bufNr" : String) ∉ properKeys := by decide
    have hp : ("path" : String) ∉ properKeys := by decide
    exact ⟨fun hc => hb (hc ▸ h), fun hc => hp (hc ▸ h)⟩
  · intro r _ kv hkv hkey
    refine List.mem_filter.mpr ⟨hkv, ?_⟩
    exact List.elem_eq_true_of_mem hkey

theorem sanitizer_keeps_only_protocol_fields_witness :
    (("range", "R") ∈ pick [("range", "R"), ("bufNr", "3"), ("path", "/a"), ("junk", "x")]
        properKeys) ∧
      (("range", "R") : String × String).1 ∈ properKeys ∧
      getProperDiagnosticsRec [[("range", "R"), ("bufNr", "3"), ("path", "/a"), ("junk", "x")]]
        = [[("range", "R")]] :=
  ⟨by decide,
    (sanitizer_keeps_only_protocol_fields
        [[("range", "R"), ("bufNr", "3"), ("path", "/a"), ("junk", "x")]]).2.1
      [("range", "R"), ("bufNr", "3"), ("path", "/a"), ("junk", "x")] (by decide)
      ("range", "R") (by decide),
    by decide⟩

/-- C10: Every diagnostic produced by an adapter carries its buffer linkage:
the nvim-lsp adapter sets `bufNr` on every output record, and the coc.nvim and
vim-lsp adapters (in both the single-uri and the all-buffers branch) set
`path` on every output record. -/
theorem adapters_set_buffer_linkage :
    (∀ raws, ∀ d ∈ nvimAdapter raws, d.bufNr.isSome = true) ∧
      (∀ uri raws, ∀ d ∈ cocAdapter uri raws, d.path.isSome = true) ∧
      (∀ grouped, ∀ d ∈ vimAdapterForUri grouped, d.path.isSome = true) ∧
      (∀ grouped, ∀ d ∈ vimAdapterAll grouped, d.path.isSome = true) := by
  refine ⟨?_, ?_, ?_, ?_⟩
  · intro raws d hd
    obtain ⟨r, -, rfl⟩ := List.mem_map.mp hd
    rfl
  · intro uri raws d hd
    obtain ⟨r, -, rfl⟩ := List.mem_map.mp hd
    rfl
  · intro grouped d hd
    unfold vimAdapterForUri at hd
    obtain ⟨g, -, hg⟩ := List.mem_flatMap.mp hd
    obtain ⟨diag, -, rfl⟩ := List.mem_map.mp hg
    rfl
  · intro grouped d hd
    unfold vimAdapterAll at hd
    obtain ⟨g, -, hg⟩ := List.mem_flatMap.mp hd
    obtain ⟨diag, -, rfl⟩ := List.mem_map.mp hg
    rfl

theorem adapters_set_buffer_linkage_witness :
    (nvimMapOne fixtureNvim ∈ nvimAdapter [fixtureNvim] ∧
        (nvimMapOne fixtureNvim).bufNr.isSome = true) ∧
      (cocMapOne fixtureCoc ∈ cocAdapter none [fixtureCoc] ∧
        (cocMapOne fixtureCoc).path.isSome = true) ∧
      (vimMapOne "/a" fixtureVim ∈
          vimAdapterForUri [("s", ⟨⟨"file:///a", [fixtureVim]⟩⟩)] ∧
        (vimMapOne "/a" fixtureVim).path.isSome = true) :=
  ⟨⟨by decide, adapters_set_buffer_linkage.1 [fixtureNvim] (nvimMapOne fixtureNvim) (by decide)⟩,
    ⟨by decide, adapters_set_buffer_linkage.2.1 none [fixtureCoc] (cocMapOne fixtureCoc)
      (by decide)⟩,
    ⟨by decide, adapters_set_buffer_linkage.2.2.1 [("s", ⟨⟨"file:///a", [fixtureVim]⟩⟩)]
      (vimMapOne "/a" fixtureVim) (by decide)⟩⟩
